import Mathlib

/-!
Shallow embedding of the two kernel modules of this gpytorch fragment
(`gpytorch/kernels/linear_kernel.py` and `gpytorch/kernels/multitask_kernel.py`)
and of the slice of the torch tensor / lazy-tensor algebra they use.

Tensors are modelled exactly: a shape (list of dimension sizes) together with
an entry function on multi-indices, with entries in `ℚ` (exact arithmetic in
place of floating point).  Fallible torch operations (broadcasting, transpose,
matmul, expand) return `Option`.
-/

set_option maxHeartbeats 1000000

namespace GPy

/-- A torch tensor: a shape together with an entry function reading
multi-indices.  Entries are exact rationals. -/
structure Tensor where
  shape : List Nat
  data : List Nat → ℚ

/-- Single-dimension torch broadcast rule: sizes agree, or one of them is 1. -/
def bc2 (a b : Nat) : Option Nat :=
  if a = b then some a
  else if a = 1 then some b
  else if b = 1 then some a
  else none

/-- Broadcast two shapes given in reversed (trailing-dimension-first) order. -/
def bcRev : List Nat → List Nat → Option (List Nat)
  | [], t => some t
  | s, [] => some s
  | a :: s, b :: t =>
    match bc2 a b, bcRev s t with
    | some c, some r => some (c :: r)
    | _, _ => none

/-- torch shape broadcasting (shapes aligned from the trailing dimension). -/
def broadcastShapes (s t : List Nat) : Option (List Nat) :=
  (bcRev s.reverse t.reverse).map List.reverse

/-- Map an index of a broadcast result back to an index of an operand of the
given original shape: drop the extra leading coordinates and clamp the
coordinates of broadcast (size-1) dimensions to 0. -/
def bcIndex (orig idx : List Nat) : List Nat :=
  List.zipWith (fun s i => if s = 1 then 0 else i) orig (idx.drop (idx.length - orig.length))

/-- All valid multi-indices of a shape. -/
def allIdx : List Nat → List (List Nat)
  | [] => [[]]
  | n :: s => (List.range n).flatMap (fun i => (allIdx s).map (i :: ·))

/-- `torch.equal`: same shape and the same entry at every valid index. -/
def Tensor.equal (x y : Tensor) : Bool :=
  x.shape == y.shape && (allIdx x.shape).all (fun idx => x.data idx == y.data idx)

/-- Broadcasting elementwise subtraction (`x - y` on tensors). -/
def Tensor.sub (x y : Tensor) : Option Tensor :=
  (broadcastShapes x.shape y.shape).map
    (fun s => Tensor.mk s
      (fun idx => x.data (bcIndex x.shape idx) - y.data (bcIndex y.shape idx)))

/-- Broadcasting elementwise addition (`x + y` on tensors). -/
def Tensor.add (x y : Tensor) : Option Tensor :=
  (broadcastShapes x.shape y.shape).map
    (fun s => Tensor.mk s
      (fun idx => x.data (bcIndex x.shape idx) + y.data (bcIndex y.shape idx)))

/-- Swap the entries at positions `i` and `j` of a list. -/
def swapAt (l : List Nat) (i j : Nat) : List Nat :=
  (List.range l.length).map
    (fun m => if m = i then l.getD j 0 else if m = j then l.getD i 0 else l.getD m 0)

/-- `Tensor.transpose x d0 d1`: torch `x.transpose(d0, d1)` for nonnegative
dimension arguments; fails when a dimension is out of range. -/
def Tensor.transpose (x : Tensor) (d0 d1 : Nat) : Option Tensor :=
  if d0 < x.shape.length ∧ d1 < x.shape.length then
    some (Tensor.mk (swapAt x.shape d0 d1) (fun idx => x.data (swapAt idx d0 d1)))
  else none

/-- torch `x.transpose(-2, -1)`: swap the two trailing dimensions. -/
def Tensor.transposeLast (x : Tensor) : Option Tensor :=
  x.transpose (x.shape.length - 2) (x.shape.length - 1)

/-- Split a shape into (batch part, second-to-last, last); fails below rank 2. -/
def splitLast2 : List Nat → Option (List Nat × Nat × Nat)
  | [] => none
  | [_] => none
  | [a, b] => some ([], a, b)
  | a :: rest => (splitLast2 rest).map (fun r => (a :: r.1, r.2.1, r.2.2))

/-- torch `matmul` for operands of rank ≥ 2: the trailing two dimensions are
multiplied as matrices and the leading (batch) dimensions broadcast. -/
def Tensor.matmul (a b : Tensor) : Option Tensor :=
  match splitLast2 a.shape, splitLast2 b.shape with
  | some (ba, n, ka), some (bb, kb, p) =>
    if ka = kb then
      (broadcastShapes ba bb).map (fun batch =>
        Tensor.mk (batch ++ [n, p]) (fun idx =>
          ∑ t ∈ Finset.range ka,
            a.data (bcIndex ba (idx.take batch.length) ++ [idx.getD batch.length 0, t]) *
            b.data (bcIndex bb (idx.take batch.length) ++ [t, idx.getD (batch.length + 1) 0])))
    else none
  | _, _ => none

/-- torch `Tensor.expand` to a target shape: the original shape is right
aligned against the target; every original dimension must match the target or
be 1; new leading dimensions may be added. -/
def Tensor.expand (x : Tensor) (s : List Nat) : Option Tensor :=
  if x.shape.length ≤ s.length ∧
      ((List.zip (s.drop (s.length - x.shape.length)) x.shape).all
        (fun p => p.2 == 1 || p.2 == p.1)) = true then
    some (Tensor.mk s (fun idx => x.data (bcIndex x.shape idx)))
  else none

/-- torch `x.squeeze(0)`: drop the leading dimension when it has size 1. -/
def Tensor.squeeze0 (x : Tensor) : Tensor :=
  match x.shape with
  | 1 :: rest => Tensor.mk rest (fun idx => x.data (0 :: idx))
  | _ => x

/-- Modelled from the spec: the mathematical Kronecker product computed by the
external `KroneckerProductLazyVariable` (not under `src/`): it "composes two
lazy/dense factors `(C_task, C_data)` into a joint matrix of shape
`(n_tasks·rows_data, n_tasks·cols_data)`, logically `C_task ⊗ C_data`", where
"each entry of `C` scales a full copy of `D`"; leading batch dimensions are
carried pointwise by broadcasting. -/
def Tensor.kron (a b : Tensor) : Option Tensor :=
  match splitLast2 a.shape, splitLast2 b.shape with
  | some (ba, m, n), some (bb, p, q) =>
    (broadcastShapes ba bb).map (fun batch =>
      Tensor.mk (batch ++ [m * p, n * q]) (fun idx =>
        a.data (bcIndex ba (idx.take batch.length) ++
          [idx.getD batch.length 0 / p, idx.getD (batch.length + 1) 0 / q]) *
        b.data (bcIndex bb (idx.take batch.length) ++
          [idx.getD batch.length 0 % p, idx.getD (batch.length + 1) 0 % q])))
  | _, _ => none

/-- The lazy-matrix variants used by the two kernel modules:
root product `R Rᵗ`, matmul product `A B`, lazy sum, dense wrap
(`NonLazyTensor` / `NonLazyVariable`), Kronecker product, and a lazy
`squeeze(0)`. -/
inductive LazyTensor where
  | root (r : Tensor)
  | matmul (a b : Tensor)
  | sum (l : LazyTensor) (t : Tensor)
  | nonlazy (t : Tensor)
  | kron (a b : LazyTensor)
  | squeeze0 (l : LazyTensor)

/-- Declared size of a root product built on a factor of shape `(..., n, d)`:
`(..., n, n)`. -/
def rootSize (s : List Nat) : Option (List Nat) :=
  (splitLast2 s).map (fun r => r.1 ++ [r.2.1, r.2.1])

/-- Declared size of a matmul product of factors `(..., n, k)` and
`(..., k, p)`: `(..., n, p)` with broadcast batch dimensions. -/
def matmulSize (sa sb : List Nat) : Option (List Nat) :=
  match splitLast2 sa, splitLast2 sb with
  | some (ba, n, ka), some (bb, kb, p) =>
    if ka = kb then (broadcastShapes ba bb).map (fun batch => batch ++ [n, p]) else none
  | _, _ => none

/-- Declared size of a Kronecker product of `(..., m, n)` and `(..., p, q)`:
`(..., m·p, n·q)`. -/
def kronSize (sa sb : List Nat) : Option (List Nat) :=
  match splitLast2 sa, splitLast2 sb with
  | some (ba, m, n), some (bb, p, q) =>
    (broadcastShapes ba bb).map (fun batch => batch ++ [m * p, n * q])
  | _, _ => none

/-- Shape effect of `squeeze(0)`. -/
def squeezeShape0 : List Nat → List Nat
  | 1 :: rest => rest
  | s => s

/-- Size introspection of a lazy matrix (computed without materializing). -/
def LazyTensor.size : LazyTensor → Option (List Nat)
  | .root r => rootSize r.shape
  | .matmul a b => matmulSize a.shape b.shape
  | .sum l t => do
      let s ← l.size
      broadcastShapes s t.shape
  | .nonlazy t => some t.shape
  | .kron a b => do
      let sa ← a.size
      let sb ← b.size
      kronSize sa sb
  | .squeeze0 l => (l.size).map squeezeShape0

/-- Materialize a lazy matrix into a dense tensor. -/
def LazyTensor.evaluate : LazyTensor → Option Tensor
  | .root r => do
      let rt ← r.transposeLast
      r.matmul rt
  | .matmul a b => a.matmul b
  | .sum l t => do
      let e ← l.evaluate
      e.add t
  | .nonlazy t => some t
  | .kron a b => do
      let ea ← a.evaluate
      let eb ← b.evaluate
      ea.kron eb
  | .squeeze0 l => (l.evaluate).map Tensor.squeeze0

/-- Implicit matrix-vector (here: matrix-times-column-matrix) product of a
lazy matrix, computed without materializing the root and matmul forms:
`(R Rᵗ) v` as `R (Rᵗ v)` and `(A B) v` as `A (B v)`. -/
def LazyTensor.matvec : LazyTensor → Tensor → Option Tensor
  | .root r, v => do
      let rt ← r.transposeLast
      let u ← rt.matmul v
      r.matmul u
  | .matmul a b, v => do
      let u ← b.matmul v
      a.matmul u
  | .sum l t, v => do
      let m ← l.matvec v
      let w ← t.matmul v
      m.add w
  | .nonlazy t, v => t.matmul v
  | .kron a b, v => do
      let e ← (LazyTensor.kron a b).evaluate
      e.matmul v
  | .squeeze0 l, v => do
      let e ← (LazyTensor.squeeze0 l).evaluate
      e.matmul v

/-- `LinearKernel` state: the registered `num_dimensions`, the scalar
`variance` parameter (registered with shape `(1,)`) and the `offset`
parameter (registered with shape `(1, 1, num_dimensions)`). -/
structure LinearKernel where
  num_dimensions : Nat
  variance : ℚ
  offset : Nat → ℚ

/-- The `offset` parameter tensor, of shape `(1, 1, num_dimensions)`. -/
def LinearKernel.offsetTensor (k : LinearKernel) : Tensor :=
  Tensor.mk [1, 1, k.num_dimensions] (fun idx => k.offset (idx.getD 2 0))

/-- The `variance` parameter tensor, of shape `(1,)`. -/
def LinearKernel.varianceTensor (k : LinearKernel) : Tensor :=
  Tensor.mk [1] (fun _ => k.variance)

/-- `LinearKernel.forward` from `linear_kernel.py`:
if `x1.size() == x2.size() and torch.equal(x1, x2)` build
`RootLazyTensor(x1 - self.offset)`, otherwise build
`MatmulLazyTensor(x1 - self.offset, (x2 - self.offset).transpose(2, 1))`;
then return `prod + self.variance.expand(prod.size())`. -/
def LinearKernel.forward (k : LinearKernel) (x1 x2 : Tensor) : Option LazyTensor :=
  if x1.shape == x2.shape && Tensor.equal x1 x2 then
    match x1.sub k.offsetTensor with
    | none => none
    | some c =>
      match (LazyTensor.root c).size with
      | none => none
      | some sz =>
        match k.varianceTensor.expand sz with
        | none => none
        | some ve => some (LazyTensor.sum (LazyTensor.root c) ve)
  else
    match x1.sub k.offsetTensor, x2.sub k.offsetTensor with
    | some c1, some c2 =>
      match c2.transpose 2 1 with
      | none => none
      | some c2t =>
        match (LazyTensor.matmul c1 c2t).size with
        | none => none
        | some sz =>
          match k.varianceTensor.expand sz with
          | none => none
          | some ve => some (LazyTensor.sum (LazyTensor.matmul c1 c2t) ve)
    | _, _ => none

/-- `MultitaskKernel` state: `n_tasks`, the task covariance module (the
`IndexKernel`, a black-box collaborator producing a lazy task covariance from
a task-index vector) and the user-supplied data kernel, which may return a
dense tensor or a lazy matrix. -/
structure MultitaskKernel where
  n_tasks : Nat
  taskCovar : Tensor → LazyTensor
  dataCovar : Tensor → Tensor → Tensor ⊕ LazyTensor

/-- `torch.range(0, n_tasks - 1).long()`: the task-index vector
`[0, 1, ..., n_tasks - 1]` (torch `range` is inclusive at both ends). -/
def taskIndices (t : Nat) : Tensor :=
  Tensor.mk [t] (fun idx => (idx.getD 0 0 : ℚ))

/-- The data covariance as composed by `MultitaskKernel.forward`:
`covar_x = self.data_covar_module.forward(x1, x2).squeeze(0)`, wrapped in
`NonLazyVariable` when the data kernel returned a dense tensor. -/
def MultitaskKernel.covarX (k : MultitaskKernel) (x1 x2 : Tensor) : LazyTensor :=
  match k.dataCovar x1 x2 with
  | .inl t => LazyTensor.nonlazy t.squeeze0
  | .inr l => LazyTensor.squeeze0 l

/-- `MultitaskKernel.forward` from `multitask_kernel.py`: evaluate the task
covariance on the task-index vector, evaluate the data kernel on `(x1, x2)`,
`squeeze(0)` the result (wrapping a dense result), and compose the two with
`KroneckerProductLazyVariable`. -/
def MultitaskKernel.forward (k : MultitaskKernel) (x1 x2 : Tensor) : LazyTensor :=
  LazyTensor.kron (k.taskCovar (taskIndices k.n_tasks)) (k.covarX x1 x2)

/-- `MultitaskKernel.size` from `multitask_kernel.py`: for 3-dimensional `x1`
return `(x1.size(0), n_tasks * x1.size(-2), n_tasks * x2.size(-2))`, otherwise
`(n_tasks * x1.size(-2), n_tasks * x2.size(-2))`; indexing with `-2` needs
rank ≥ 2. -/
def MultitaskKernel.size (k : MultitaskKernel) (x1 x2 : Tensor) : Option (List Nat) :=
  if 2 ≤ x1.shape.length ∧ 2 ≤ x2.shape.length then
    if x1.shape.length = 3 then
      some [x1.shape.getD 0 0,
            k.n_tasks * x1.shape.getD (x1.shape.length - 2) 0,
            k.n_tasks * x2.shape.getD (x2.shape.length - 2) 0]
    else
      some [k.n_tasks * x1.shape.getD (x1.shape.length - 2) 0,
            k.n_tasks * x2.shape.getD (x2.shape.length - 2) 0]
  else none

/-- Closed form of the centering `x - offset` for an unbatched input of shape
`(n, num_dimensions)`: broadcasting against the `(1, 1, num_dimensions)`
offset inserts a batch dimension of size 1. -/
def center2 (k : LinearKernel) (x : Tensor) (n : Nat) : Tensor :=
  Tensor.mk [1, n, k.num_dimensions]
    (fun idx => x.data (bcIndex [n, k.num_dimensions] idx) -
      k.offsetTensor.data (bcIndex [1, 1, k.num_dimensions] idx))

/-- Closed form of the centering `x - offset` for a batched input of shape
`(b, n, num_dimensions)`. -/
def center3 (k : LinearKernel) (x : Tensor) (b n : Nat) : Tensor :=
  Tensor.mk [b, n, k.num_dimensions]
    (fun idx => x.data (bcIndex [b, n, k.num_dimensions] idx) -
      k.offsetTensor.data (bcIndex [1, 1, k.num_dimensions] idx))

/-- Concrete kernel used by witnesses: `num_dimensions = 2`, `variance = 5`,
constant offset 1. -/
def wK : LinearKernel := ⟨2, 5, fun _ => 1⟩

/-- Concrete `(2, 2)` input for witnesses. -/
def wX1 : Tensor :=
  Tensor.mk [2, 2] (fun idx => if idx.getD 0 0 = 0 then (if idx.getD 1 0 = 0 then 0 else 2) else (if idx.getD 1 0 = 0 then 1 else 3))

/-- Concrete `(3, 2)` input for witnesses. -/
def wX2 : Tensor := Tensor.mk [3, 2] (fun idx => if idx.getD 0 0 = 0 then 0 else if idx.getD 0 0 = 1 then 1 else 2)

/-- Concrete `(0, 2)` (zero-row) input for witnesses. -/
def wX0 : Tensor := Tensor.mk [0, 2] (fun _ => 0)

/-- Concrete batched `(2, 2, 2)` input for witnesses. -/
def wY1 : Tensor :=
  Tensor.mk [2, 2, 2] (fun idx => if idx.getD 0 0 = 0 then (if idx.getD 1 0 = 0 then 1 else 4) else (if idx.getD 2 0 = 0 then 2 else 5))

/-- Concrete batched `(2, 3, 2)` input for witnesses. -/
def wY2 : Tensor := Tensor.mk [2, 3, 2] (fun idx => if idx.getD 2 0 = 0 then 3 else 6)

/-- Concrete `(3, 1)` column vector for matvec witnesses. -/
def wV : Tensor := Tensor.mk [3, 1] (fun idx => if idx.getD 0 0 = 0 then 1 else if idx.getD 0 0 = 1 then 2 else 3)

/-- Kernel with `num_dimensions = 3` for the dimension-mismatch analysis. -/
def cK3 : LinearKernel := ⟨3, 0, fun _ => 0⟩

/-- `(5, 4)` input: its last dimension 4 cannot broadcast against
`num_dimensions = 3`. -/
def cX54 : Tensor := Tensor.mk [5, 4] (fun _ => 0)

/-- `(2, 1)` input: its last dimension 1 broadcasts silently against
`num_dimensions = 3`. -/
def cXnarrow : Tensor := Tensor.mk [2, 1] (fun _ => 0)

/-- Concrete `(2, 2)` task covariance matrix for the multitask witnesses. -/
def wTi : Tensor :=
  Tensor.mk [2, 2] (fun idx => if idx.getD 0 0 = idx.getD 1 0 then 2 else 1)

/-- Concrete `(3, 3)` dense data covariance for the multitask witnesses. -/
def wTx : Tensor := Tensor.mk [3, 3] (fun idx => if idx.getD 0 0 = idx.getD 1 0 then 5 else 1)

/-- Concrete multitask kernel (2 tasks, dense `(3, 3)` data kernel). -/
def wMT : MultitaskKernel := ⟨2, fun _ => LazyTensor.nonlazy wTi, fun _ _ => Sum.inl wTx⟩

/-- Concrete `(3, 1)` input for the multitask witnesses. -/
def wZ : Tensor := Tensor.mk [3, 1] (fun _ => 0)

/-- Concrete batched `(1, 3, 3)` dense data covariance: its leading size-1
dimension is removed by the `squeeze(0)` in `MultitaskKernel.forward`. -/
def cTx3 : Tensor := Tensor.mk [1, 3, 3] (fun _ => 1)

/-- Concrete multitask kernel whose data kernel returns a batch-1 batched
dense result. -/
def cMT : MultitaskKernel := ⟨2, fun _ => LazyTensor.nonlazy wTi, fun _ _ => Sum.inl cTx3⟩

/-- Concrete batched `(1, 3, 1)` input. -/
def cZ3 : Tensor := Tensor.mk [1, 3, 1] (fun _ => 0)

/-! ## Theorems -/

/-! ### Basic computation lemmas about broadcasting and indexing -/

theorem bc2_same (a : Nat) : bc2 a a = some a := by simp [bc2]

theorem bc2_one_right (a : Nat) : bc2 a 1 = some a := by
  unfold bc2
  by_cases h : a = 1 <;> simp [h]

theorem bc2_one_left (a : Nat) : bc2 1 a = some a := by
  unfold bc2
  by_cases h : 1 = a <;> simp [h]

theorem bcRev_same (l : List Nat) : bcRev l l = some l := by
  induction l with
  | nil => rfl
  | cons a l ih => simp [bcRev, bc2_same, ih]

theorem broadcastShapes_same (s : List Nat) : broadcastShapes s s = some s := by
  simp [broadcastShapes, bcRev_same]

theorem broadcastShapes_nil_right (s : List Nat) : broadcastShapes s [] = some s := by
  cases s with
  | nil => rfl
  | cons a l => simp [broadcastShapes, bcRev]

theorem broadcastShapes_nil_left (s : List Nat) : broadcastShapes [] s = some s := by
  simp [broadcastShapes, bcRev]

theorem broadcastShapes_2d (n d : Nat) :
    broadcastShapes [n, d] [1, 1, d] = some [1, n, d] := by
  simp [broadcastShapes, bcRev, bc2_same, bc2_one_right]

theorem broadcastShapes_3d (b n d : Nat) :
    broadcastShapes [b, n, d] [1, 1, d] = some [b, n, d] := by
  simp [broadcastShapes, bcRev, bc2_same, bc2_one_right]

theorem idx_ite {i n : Nat} (h : i < n) : (if n = 1 then 0 else i) = i := by
  split
  · omega
  · rfl

/-! ### `torch.equal` -/

theorem Tensor.equal_shape {x y : Tensor} (h : Tensor.equal x y = true) :
    x.shape = y.shape := by
  simp [Tensor.equal, Bool.and_eq_true] at h
  exact h.1

theorem Tensor.equal_data {x y : Tensor} (h : Tensor.equal x y = true)
    {idx : List Nat} (hm : idx ∈ allIdx x.shape) : x.data idx = y.data idx := by
  simp [Tensor.equal, Bool.and_eq_true, List.all_eq_true] at h
  exact h.2 idx hm

theorem mem_allIdx2 {i j a b : Nat} (hi : i < a) (hj : j < b) :
    [i, j] ∈ allIdx [a, b] := by
  simp [allIdx]
  exact ⟨hi, hj⟩

theorem mem_allIdx3 {i j l a b c : Nat} (hi : i < a) (hj : j < b) (hl : l < c) :
    [i, j, l] ∈ allIdx [a, b, c] := by
  simp [allIdx]
  exact ⟨hi, hj, hl⟩
/-! ### Centering, transpose and matmul computation lemmas -/

theorem offsetTensor_shape (k : LinearKernel) :
    k.offsetTensor.shape = [1, 1, k.num_dimensions] := rfl

theorem sub_off2 {k : LinearKernel} {x : Tensor} {n : Nat}
    (hx : x.shape = [n, k.num_dimensions]) :
    x.sub k.offsetTensor = some (center2 k x n) := by
  unfold Tensor.sub center2
  rw [offsetTensor_shape, hx, broadcastShapes_2d]
  rfl

theorem sub_off3 {k : LinearKernel} {x : Tensor} {b n : Nat}
    (hx : x.shape = [b, n, k.num_dimensions]) :
    x.sub k.offsetTensor = some (center3 k x b n) := by
  unfold Tensor.sub center3
  rw [offsetTensor_shape, hx, broadcastShapes_3d]
  rfl

theorem center2_shape (k : LinearKernel) (x : Tensor) (n : Nat) :
    (center2 k x n).shape = [1, n, k.num_dimensions] := rfl

theorem center3_shape (k : LinearKernel) (x : Tensor) (b n : Nat) :
    (center3 k x b n).shape = [b, n, k.num_dimensions] := rfl

theorem center2_data {k : LinearKernel} {x : Tensor} {n : Nat}
    (β i t : Nat) (hi : i < n) (ht : t < k.num_dimensions) :
    (center2 k x n).data [β, i, t] = x.data [i, t] - k.offset t := by
  unfold center2
  simp [bcIndex, LinearKernel.offsetTensor, idx_ite hi, idx_ite ht]

theorem center3_data {k : LinearKernel} {x : Tensor} {b n : Nat}
    (β i t : Nat) (hβ : β < b) (hi : i < n) (ht : t < k.num_dimensions) :
    (center3 k x b n).data [β, i, t] = x.data [β, i, t] - k.offset t := by
  unfold center3
  simp [bcIndex, LinearKernel.offsetTensor, idx_ite hβ, idx_ite hi, idx_ite ht]

theorem swapAt3_21 (a b c : Nat) : swapAt [a, b, c] 2 1 = [a, c, b] := rfl

theorem swapAt3_12 (a b c : Nat) : swapAt [a, b, c] 1 2 = [a, c, b] := rfl

theorem swapAt_symm (l : List Nat) (i j : Nat) : swapAt l i j = swapAt l j i := by
  unfold swapAt
  apply List.map_congr_left
  intro m _
  split_ifs with h1 h2 h3 <;> simp_all

theorem transpose21_3 {c : Tensor} {B n d : Nat} (hc : c.shape = [B, n, d]) :
    c.transpose 2 1 =
      some (Tensor.mk [B, d, n] (fun idx => c.data (swapAt idx 2 1))) := by
  unfold Tensor.transpose
  rw [hc]
  simp [swapAt3_21]

theorem transposeLast_3 {c : Tensor} {B n d : Nat} (hc : c.shape = [B, n, d]) :
    c.transposeLast =
      some (Tensor.mk [B, d, n] (fun idx => c.data (swapAt idx 1 2))) := by
  unfold Tensor.transposeLast Tensor.transpose
  rw [hc]
  simp [swapAt3_12]

theorem transpose21_eq_transposeLast {c : Tensor} {B n d : Nat}
    (hc : c.shape = [B, n, d]) : c.transpose 2 1 = c.transposeLast := by
  rw [transpose21_3 hc, transposeLast_3 hc]
  have : (fun idx => c.data (swapAt idx 2 1)) = (fun idx => c.data (swapAt idx 1 2)) := by
    funext idx
    rw [swapAt_symm]
  rw [this]

theorem matmul3 {a b : Tensor} {B n d p : Nat}
    (ha : a.shape = [B, n, d]) (hb : b.shape = [B, d, p]) :
    ∃ c, a.matmul b = some c ∧ c.shape = [B, n, p] ∧
      ∀ β i j, β < B → c.data [β, i, j] =
        ∑ t ∈ Finset.range d, a.data [β, i, t] * b.data [β, t, j] := by
  unfold Tensor.matmul
  rw [ha, hb]
  simp only [splitLast2, Option.map_some', broadcastShapes_same, if_pos rfl]
  refine ⟨_, rfl, by simp, ?_⟩
  intro β i j hβ
  simp [bcIndex, idx_ite hβ]

theorem matmul3_vec {a v : Tensor} {B n p q : Nat}
    (ha : a.shape = [B, n, p]) (hv : v.shape = [p, q]) :
    ∃ c, a.matmul v = some c ∧ c.shape = [B, n, q] ∧
      ∀ β i j, β < B → c.data [β, i, j] =
        ∑ t ∈ Finset.range p, a.data [β, i, t] * v.data [t, j] := by
  unfold Tensor.matmul
  rw [ha, hv]
  simp only [splitLast2, Option.map_some', broadcastShapes_nil_right, if_pos rfl]
  refine ⟨_, rfl, by simp, ?_⟩
  intro β i j hβ
  simp [bcIndex, idx_ite hβ]

theorem add_same3 {x y : Tensor} {B n p : Nat}
    (hx : x.shape = [B, n, p]) (hy : y.shape = [B, n, p]) :
    ∃ c, x.add y = some c ∧ c.shape = [B, n, p] ∧
      ∀ β i j, β < B → i < n → j < p →
        c.data [β, i, j] = x.data [β, i, j] + y.data [β, i, j] := by
  unfold Tensor.add
  rw [hx, hy, broadcastShapes_same]
  refine ⟨_, rfl, rfl, ?_⟩
  intro β i j hβ hi hj
  simp [bcIndex, idx_ite hβ, idx_ite hi, idx_ite hj]

theorem var_expand3 (k : LinearKernel) (B n p : Nat) :
    k.varianceTensor.expand [B, n, p] =
      some (Tensor.mk [B, n, p] (fun _ => k.variance)) := rfl

theorem rootSize_3 (B n d : Nat) : rootSize [B, n, d] = some [B, n, n] := rfl

theorem matmulSize_3 (B n d p : Nat) :
    matmulSize [B, n, d] [B, d, p] = some [B, n, p] := by
  simp [matmulSize, splitLast2, broadcastShapes_same]
/-! ### Branch and evaluation lemmas for `LinearKernel.forward` -/

theorem forward_root {k : LinearKernel} {x1 x2 c : Tensor} {B n d : Nat}
    (heq : (x1.shape == x2.shape && Tensor.equal x1 x2) = true)
    (hsub : x1.sub k.offsetTensor = some c)
    (hc : c.shape = [B, n, d]) :
    k.forward x1 x2 = some (LazyTensor.sum (LazyTensor.root c)
      (Tensor.mk [B, n, n] (fun _ => k.variance))) := by
  simp only [LinearKernel.forward, heq, if_true, hsub, LazyTensor.size, hc,
    rootSize_3, var_expand3]

theorem forward_matmul {k : LinearKernel} {x1 x2 c1 c2 : Tensor} {B n1 d n2 : Nat}
    (hne : (x1.shape == x2.shape && Tensor.equal x1 x2) = false)
    (h1 : x1.sub k.offsetTensor = some c1)
    (h2 : x2.sub k.offsetTensor = some c2)
    (hc1 : c1.shape = [B, n1, d])
    (hc2 : c2.shape = [B, n2, d]) :
    k.forward x1 x2 = some (LazyTensor.sum
      (LazyTensor.matmul c1 (Tensor.mk [B, d, n2] (fun idx => c2.data (swapAt idx 2 1))))
      (Tensor.mk [B, n1, n2] (fun _ => k.variance))) := by
  simp only [LinearKernel.forward, hne, Bool.false_eq_true, if_false, h1, h2,
    transpose21_3 hc2, LazyTensor.size, hc1, matmulSize_3, var_expand3]

theorem size_root_sum {c ve : Tensor} {B n d : Nat}
    (hc : c.shape = [B, n, d]) (hve : ve.shape = [B, n, n]) :
    (LazyTensor.sum (LazyTensor.root c) ve).size = some [B, n, n] := by
  simp [LazyTensor.size, hc, rootSize_3, hve, broadcastShapes_same]

theorem size_matmul_sum {c1 c2t ve : Tensor} {B n1 d n2 : Nat}
    (h1 : c1.shape = [B, n1, d]) (h2 : c2t.shape = [B, d, n2])
    (hve : ve.shape = [B, n1, n2]) :
    (LazyTensor.sum (LazyTensor.matmul c1 c2t) ve).size = some [B, n1, n2] := by
  simp [LazyTensor.size, h1, h2, matmulSize_3, hve, broadcastShapes_same]

theorem eval_root_sum {c ve : Tensor} {B n d : Nat}
    (hc : c.shape = [B, n, d]) (hve : ve.shape = [B, n, n]) :
    ∃ T, (LazyTensor.sum (LazyTensor.root c) ve).evaluate = some T ∧
      T.shape = [B, n, n] ∧
      ∀ β i j, β < B → i < n → j < n →
        T.data [β, i, j] =
          (∑ t ∈ Finset.range d, c.data [β, i, t] * c.data [β, j, t]) +
            ve.data [β, i, j] := by
  obtain ⟨e, he, hesh, hedata⟩ :=
    matmul3 hc (show (Tensor.mk [B, d, n] (fun idx => c.data (swapAt idx 1 2))).shape
      = [B, d, n] from rfl)
  obtain ⟨T, hT, hTsh, hTdata⟩ := add_same3 hesh hve
  refine ⟨T, ?_, hTsh, ?_⟩
  · simp only [LazyTensor.evaluate, transposeLast_3 hc, Option.bind_eq_bind, Option.some_bind, he, hT]
  · intro β i j hβ hi hj
    rw [hTdata β i j hβ hi hj, hedata β i j hβ]
    rfl

theorem eval_matmul_sum {c1 c2t ve : Tensor} {B n1 d n2 : Nat}
    (h1 : c1.shape = [B, n1, d]) (h2 : c2t.shape = [B, d, n2])
    (hve : ve.shape = [B, n1, n2]) :
    ∃ T, (LazyTensor.sum (LazyTensor.matmul c1 c2t) ve).evaluate = some T ∧
      T.shape = [B, n1, n2] ∧
      ∀ β i j, β < B → i < n1 → j < n2 →
        T.data [β, i, j] =
          (∑ t ∈ Finset.range d, c1.data [β, i, t] * c2t.data [β, t, j]) +
            ve.data [β, i, j] := by
  obtain ⟨e, he, hesh, hedata⟩ := matmul3 h1 h2
  obtain ⟨T, hT, hTsh, hTdata⟩ := add_same3 hesh hve
  refine ⟨T, ?_, hTsh, ?_⟩
  · simp only [LazyTensor.evaluate, he, Option.bind_eq_bind, Option.some_bind, hT]
  · intro β i j hβ hi hj
    rw [hTdata β i j hβ hi hj, hedata β i j hβ]
/-! ### Master evaluation lemmas for `LinearKernel.forward` -/

theorem forward2_master {k : LinearKernel} {x1 x2 : Tensor} {n1 n2 : Nat}
    (h1 : x1.shape = [n1, k.num_dimensions]) (h2 : x2.shape = [n2, k.num_dimensions]) :
    ∃ l T, k.forward x1 x2 = some l ∧ l.size = some [1, n1, n2] ∧
      l.evaluate = some T ∧ T.shape = [1, n1, n2] ∧
      ∀ i j, i < n1 → j < n2 →
        T.data [0, i, j] =
          (∑ t ∈ Finset.range k.num_dimensions,
            (x1.data [i, t] - k.offset t) * (x2.data [j, t] - k.offset t)) +
            k.variance := by
  by_cases heq : (x1.shape == x2.shape && Tensor.equal x1 x2) = true
  · have hteq : Tensor.equal x1 x2 = true := by
      rw [Bool.and_eq_true] at heq
      exact heq.2
    have hsh : x1.shape = x2.shape := Tensor.equal_shape hteq
    obtain rfl : n1 = n2 := by
      rw [h1, h2] at hsh
      simp at hsh
      omega
    rw [forward_root heq (sub_off2 h1) (center2_shape k x1 n1)]
    obtain ⟨T, hev, hTsh, hTdata⟩ :=
      eval_root_sum (center2_shape k x1 n1)
        (show (Tensor.mk [1, n1, n1] (fun _ => k.variance)).shape = [1, n1, n1] from rfl)
    refine ⟨_, T, rfl, size_root_sum (center2_shape k x1 n1) rfl, hev, hTsh, ?_⟩
    intro i j hi hj
    rw [hTdata 0 i j (by omega) hi hj]
    have hvar : (Tensor.mk [1, n1, n1] (fun _ => k.variance)).data [0, i, j] = k.variance := rfl
    rw [hvar]
    congr 1
    apply Finset.sum_congr rfl
    intro t ht
    have htd : t < k.num_dimensions := Finset.mem_range.mp ht
    rw [center2_data 0 i t hi htd, center2_data 0 j t hj htd]
    have hx : x1.data [j, t] = x2.data [j, t] := by
      apply Tensor.equal_data hteq
      rw [h1]
      exact mem_allIdx2 hj htd
    rw [hx]
  · have hne : (x1.shape == x2.shape && Tensor.equal x1 x2) = false := by
      simpa using heq
    rw [forward_matmul hne (sub_off2 h1) (sub_off2 h2)
      (center2_shape k x1 n1) (center2_shape k x2 n2)]
    obtain ⟨T, hev, hTsh, hTdata⟩ :=
      eval_matmul_sum (center2_shape k x1 n1)
        (show (Tensor.mk [1, k.num_dimensions, n2]
          (fun idx => (center2 k x2 n2).data (swapAt idx 2 1))).shape
            = [1, k.num_dimensions, n2] from rfl)
        (show (Tensor.mk [1, n1, n2] (fun _ => k.variance)).shape = [1, n1, n2] from rfl)
    refine ⟨_, T, rfl, size_matmul_sum (center2_shape k x1 n1) rfl rfl, hev, hTsh, ?_⟩
    intro i j hi hj
    rw [hTdata 0 i j (by omega) hi hj]
    have hvar : (Tensor.mk [1, n1, n2] (fun _ => k.variance)).data [0, i, j] = k.variance := rfl
    rw [hvar]
    congr 1
    apply Finset.sum_congr rfl
    intro t ht
    have htd : t < k.num_dimensions := Finset.mem_range.mp ht
    rw [center2_data 0 i t hi htd]
    have hsw : (Tensor.mk [1, k.num_dimensions, n2]
        (fun idx => (center2 k x2 n2).data (swapAt idx 2 1))).data [0, t, j]
        = (center2 k x2 n2).data [0, j, t] := rfl
    rw [hsw, center2_data 0 j t hj htd]

theorem forward3_master {k : LinearKernel} {x1 x2 : Tensor} {b n1 n2 : Nat}
    (h1 : x1.shape = [b, n1, k.num_dimensions])
    (h2 : x2.shape = [b, n2, k.num_dimensions]) :
    ∃ l T, k.forward x1 x2 = some l ∧ l.size = some [b, n1, n2] ∧
      l.evaluate = some T ∧ T.shape = [b, n1, n2] ∧
      ∀ β i j, β < b → i < n1 → j < n2 →
        T.data [β, i, j] =
          (∑ t ∈ Finset.range k.num_dimensions,
            (x1.data [β, i, t] - k.offset t) * (x2.data [β, j, t] - k.offset t)) +
            k.variance := by
  by_cases heq : (x1.shape == x2.shape && Tensor.equal x1 x2) = true
  · have hteq : Tensor.equal x1 x2 = true := by
      rw [Bool.and_eq_true] at heq
      exact heq.2
    have hsh : x1.shape = x2.shape := Tensor.equal_shape hteq
    obtain rfl : n1 = n2 := by
      rw [h1, h2] at hsh
      simp at hsh
      omega
    rw [forward_root heq (sub_off3 h1) (center3_shape k x1 b n1)]
    obtain ⟨T, hev, hTsh, hTdata⟩ :=
      eval_root_sum (center3_shape k x1 b n1)
        (show (Tensor.mk [b, n1, n1] (fun _ => k.variance)).shape = [b, n1, n1] from rfl)
    refine ⟨_, T, rfl, size_root_sum (center3_shape k x1 b n1) rfl, hev, hTsh, ?_⟩
    intro β i j hβ hi hj
    rw [hTdata β i j hβ hi hj]
    have hvar : (Tensor.mk [b, n1, n1] (fun _ => k.variance)).data [β, i, j] = k.variance := rfl
    rw [hvar]
    congr 1
    apply Finset.sum_congr rfl
    intro t ht
    have htd : t < k.num_dimensions := Finset.mem_range.mp ht
    rw [center3_data β i t hβ hi htd, center3_data β j t hβ hj htd]
    have hx : x1.data [β, j, t] = x2.data [β, j, t] := by
      apply Tensor.equal_data hteq
      rw [h1]
      exact mem_allIdx3 hβ hj htd
    rw [hx]
  · have hne : (x1.shape == x2.shape && Tensor.equal x1 x2) = false := by
      simpa using heq
    rw [forward_matmul hne (sub_off3 h1) (sub_off3 h2)
      (center3_shape k x1 b n1) (center3_shape k x2 b n2)]
    obtain ⟨T, hev, hTsh, hTdata⟩ :=
      eval_matmul_sum (center3_shape k x1 b n1)
        (show (Tensor.mk [b, k.num_dimensions, n2]
          (fun idx => (center3 k x2 b n2).data (swapAt idx 2 1))).shape
            = [b, k.num_dimensions, n2] from rfl)
        (show (Tensor.mk [b, n1, n2] (fun _ => k.variance)).shape = [b, n1, n2] from rfl)
    refine ⟨_, T, rfl, size_matmul_sum (center3_shape k x1 b n1) rfl rfl, hev, hTsh, ?_⟩
    intro β i j hβ hi hj
    rw [hTdata β i j hβ hi hj]
    have hvar : (Tensor.mk [b, n1, n2] (fun _ => k.variance)).data [β, i, j] = k.variance := rfl
    rw [hvar]
    congr 1
    apply Finset.sum_congr rfl
    intro t ht
    have htd : t < k.num_dimensions := Finset.mem_range.mp ht
    rw [center3_data β i t hβ hi htd]
    have hsw : (Tensor.mk [b, k.num_dimensions, n2]
        (fun idx => (center3 k x2 b n2).data (swapAt idx 2 1))).data [β, t, j]
        = (center3 k x2 b n2).data [β, j, t] := rfl
    rw [hsw, center3_data β j t hβ hj htd]
/-! ### Matvec agreement: the implicit product equals the dense product -/

theorem sum_swap_core {d n : Nat} (a : Nat → ℚ) (bm : Nat → Nat → ℚ)
    (w vv : Nat → ℚ) :
    (∑ t ∈ Finset.range d, a t * ∑ s ∈ Finset.range n, bm t s * vv s) +
      ∑ s ∈ Finset.range n, w s * vv s =
    ∑ s ∈ Finset.range n, ((∑ t ∈ Finset.range d, a t * bm t s) + w s) * vv s := by
  simp only [add_mul, Finset.sum_add_distrib, Finset.sum_mul, mul_assoc, Finset.mul_sum]
  rw [Finset.sum_comm]

theorem matvec_agree_root {c ve v : Tensor} {B n d q : Nat}
    (hc : c.shape = [B, n, d]) (hve : ve.shape = [B, n, n]) (hv : v.shape = [n, q]) :
    ∃ mv T dv, (LazyTensor.sum (LazyTensor.root c) ve).matvec v = some mv ∧
      (LazyTensor.sum (LazyTensor.root c) ve).evaluate = some T ∧
      T.matmul v = some dv ∧ mv.shape = [B, n, q] ∧ dv.shape = [B, n, q] ∧
      ∀ β i j, β < B → i < n → j < q → mv.data [β, i, j] = dv.data [β, i, j] := by
  obtain ⟨T, hT, hTsh, hTdata⟩ := eval_root_sum hc hve
  obtain ⟨u, hu, hush, hudata⟩ :=
    matmul3_vec (show (Tensor.mk [B, d, n]
      (fun idx => c.data (swapAt idx 1 2))).shape = [B, d, n] from rfl) hv
  obtain ⟨m, hm, hmsh, hmdata⟩ := matmul3 hc hush
  obtain ⟨w, hw, hwsh, hwdata⟩ := matmul3_vec hve hv
  obtain ⟨mv, hmv, hmvsh, hmvdata⟩ := add_same3 hmsh hwsh
  obtain ⟨dv, hdv, hdvsh, hdvdata⟩ := matmul3_vec hTsh hv
  refine ⟨mv, T, dv, ?_, hT, hdv, hmvsh, hdvsh, ?_⟩
  · simp only [LazyTensor.matvec, transposeLast_3 hc, Option.bind_eq_bind,
      Option.some_bind, hu, hm, hw, hmv]
  · intro β i j hβ hi hj
    have hu2 : ∀ t, u.data [β, t, j] =
        ∑ s ∈ Finset.range n, c.data [β, s, t] * v.data [s, j] := by
      intro t
      rw [hudata β t j hβ]
      rfl
    have hT2 : ∑ s ∈ Finset.range n, T.data [β, i, s] * v.data [s, j]
        = ∑ s ∈ Finset.range n,
            ((∑ t ∈ Finset.range d, c.data [β, i, t] * c.data [β, s, t]) +
              ve.data [β, i, s]) * v.data [s, j] := by
      apply Finset.sum_congr rfl
      intro s hs
      rw [hTdata β i s hβ hi (Finset.mem_range.mp hs)]
    rw [hmvdata β i j hβ hi hj, hmdata β i j hβ, hdvdata β i j hβ,
      hwdata β i j hβ, hT2]
    simp only [hu2]
    exact sum_swap_core (fun t => c.data [β, i, t]) (fun t s => c.data [β, s, t])
      (fun s => ve.data [β, i, s]) (fun s => v.data [s, j])

theorem matvec_agree_matmul {c1 c2t ve v : Tensor} {B n1 d n2 q : Nat}
    (h1 : c1.shape = [B, n1, d]) (h2 : c2t.shape = [B, d, n2])
    (hve : ve.shape = [B, n1, n2]) (hv : v.shape = [n2, q]) :
    ∃ mv T dv, (LazyTensor.sum (LazyTensor.matmul c1 c2t) ve).matvec v = some mv ∧
      (LazyTensor.sum (LazyTensor.matmul c1 c2t) ve).evaluate = some T ∧
      T.matmul v = some dv ∧ mv.shape = [B, n1, q] ∧ dv.shape = [B, n1, q] ∧
      ∀ β i j, β < B → i < n1 → j < q → mv.data [β, i, j] = dv.data [β, i, j] := by
  obtain ⟨T, hT, hTsh, hTdata⟩ := eval_matmul_sum h1 h2 hve
  obtain ⟨u, hu, hush, hudata⟩ := matmul3_vec h2 hv
  obtain ⟨m, hm, hmsh, hmdata⟩ := matmul3 h1 hush
  obtain ⟨w, hw, hwsh, hwdata⟩ := matmul3_vec hve hv
  obtain ⟨mv, hmv, hmvsh, hmvdata⟩ := add_same3 hmsh hwsh
  obtain ⟨dv, hdv, hdvsh, hdvdata⟩ := matmul3_vec hTsh hv
  refine ⟨mv, T, dv, ?_, hT, hdv, hmvsh, hdvsh, ?_⟩
  · simp only [LazyTensor.matvec, Option.bind_eq_bind, Option.some_bind,
      hu, hm, hw, hmv]
  · intro β i j hβ hi hj
    have hT2 : ∑ s ∈ Finset.range n2, T.data [β, i, s] * v.data [s, j]
        = ∑ s ∈ Finset.range n2,
            ((∑ t ∈ Finset.range d, c1.data [β, i, t] * c2t.data [β, t, s]) +
              ve.data [β, i, s]) * v.data [s, j] := by
      apply Finset.sum_congr rfl
      intro s hs
      rw [hTdata β i s hβ hi (Finset.mem_range.mp hs)]
    have hu2 : ∀ t, u.data [β, t, j] =
        ∑ s ∈ Finset.range n2, c2t.data [β, t, s] * v.data [s, j] := by
      intro t
      rw [hudata β t j hβ]
    rw [hmvdata β i j hβ hi hj, hmdata β i j hβ, hdvdata β i j hβ,
      hwdata β i j hβ, hT2]
    simp only [hu2]
    exact sum_swap_core (fun t => c1.data [β, i, t]) (fun t s => c2t.data [β, t, s])
      (fun s => ve.data [β, i, s]) (fun s => v.data [s, j])

theorem forward2_matvec {k : LinearKernel} {x1 x2 v : Tensor} {n1 n2 q : Nat}
    (h1 : x1.shape = [n1, k.num_dimensions]) (h2 : x2.shape = [n2, k.num_dimensions])
    (hv : v.shape = [n2, q]) :
    ∃ l mv T dv, k.forward x1 x2 = some l ∧ l.matvec v = some mv ∧
      l.evaluate = some T ∧ T.matmul v = some dv ∧
      mv.shape = [1, n1, q] ∧ dv.shape = [1, n1, q] ∧
      ∀ i j, i < n1 → j < q → mv.data [0, i, j] = dv.data [0, i, j] := by
  by_cases heq : (x1.shape == x2.shape && Tensor.equal x1 x2) = true
  · have hteq : Tensor.equal x1 x2 = true := by
      rw [Bool.and_eq_true] at heq
      exact heq.2
    have hsh : x1.shape = x2.shape := Tensor.equal_shape hteq
    obtain rfl : n1 = n2 := by
      rw [h1, h2] at hsh
      simp at hsh
      omega
    rw [forward_root heq (sub_off2 h1) (center2_shape k x1 n1)]
    obtain ⟨mv, T, dv, hmv, hT, hdv, hmvsh, hdvsh, hdata⟩ :=
      matvec_agree_root (center2_shape k x1 n1)
        (show (Tensor.mk [1, n1, n1] (fun _ => k.variance)).shape = [1, n1, n1] from rfl) hv
    exact ⟨_, mv, T, dv, rfl, hmv, hT, hdv, hmvsh, hdvsh,
      fun i j hi hj => hdata 0 i j (by omega) hi hj⟩
  · have hne : (x1.shape == x2.shape && Tensor.equal x1 x2) = false := by
      simpa using heq
    rw [forward_matmul hne (sub_off2 h1) (sub_off2 h2)
      (center2_shape k x1 n1) (center2_shape k x2 n2)]
    obtain ⟨mv, T, dv, hmv, hT, hdv, hmvsh, hdvsh, hdata⟩ :=
      matvec_agree_matmul (center2_shape k x1 n1)
        (show (Tensor.mk [1, k.num_dimensions, n2]
          (fun idx => (center2 k x2 n2).data (swapAt idx 2 1))).shape
            = [1, k.num_dimensions, n2] from rfl)
        (show (Tensor.mk [1, n1, n2] (fun _ => k.variance)).shape = [1, n1, n2] from rfl) hv
    exact ⟨_, mv, T, dv, rfl, hmv, hT, hdv, hmvsh, hdvsh,
      fun i j hi hj => hdata 0 i j (by omega) hi hj⟩
/-! ### MultitaskKernel lemmas -/

theorem kron2 {a b : Tensor} {m n p q : Nat}
    (ha : a.shape = [m, n]) (hb : b.shape = [p, q]) :
    ∃ c, a.kron b = some c ∧ c.shape = [m * p, n * q] ∧
      ∀ i j, c.data [i, j] = a.data [i / p, j / q] * b.data [i % p, j % q] := by
  unfold Tensor.kron
  rw [ha, hb]
  simp only [splitLast2, Option.map_some', broadcastShapes_nil_right]
  refine ⟨_, rfl, by simp, ?_⟩
  intro i j
  simp [bcIndex]

theorem kron2_3 {a b : Tensor} {m n B p q : Nat}
    (ha : a.shape = [m, n]) (hb : b.shape = [B, p, q]) :
    ∃ c, a.kron b = some c ∧ c.shape = [B, m * p, n * q] := by
  unfold Tensor.kron
  rw [ha, hb]
  simp only [splitLast2, Option.map_some', broadcastShapes_nil_left]
  exact ⟨_, rfl, by simp⟩

theorem mt_forward_eval2 {k : MultitaskKernel} {x1 x2 Ti Tx : Tensor} {p q : Nat}
    (hi : (k.taskCovar (taskIndices k.n_tasks)).evaluate = some Ti)
    (hish : Ti.shape = [k.n_tasks, k.n_tasks])
    (hx : (k.covarX x1 x2).evaluate = some Tx)
    (hxsh : Tx.shape = [p, q]) :
    ∃ R, (k.forward x1 x2).evaluate = some R ∧
      R.shape = [k.n_tasks * p, k.n_tasks * q] ∧
      ∀ i j, R.data [i, j] = Ti.data [i / p, j / q] * Tx.data [i % p, j % q] := by
  obtain ⟨R, hR, hRsh, hRdata⟩ := kron2 hish hxsh
  refine ⟨R, ?_, hRsh, hRdata⟩
  simp only [MultitaskKernel.forward, LazyTensor.evaluate, hi, hx,
    Option.bind_eq_bind, Option.some_bind, hR]

theorem mt_forward_eval3 {k : MultitaskKernel} {x1 x2 Ti Tx : Tensor} {B p q : Nat}
    (hi : (k.taskCovar (taskIndices k.n_tasks)).evaluate = some Ti)
    (hish : Ti.shape = [k.n_tasks, k.n_tasks])
    (hx : (k.covarX x1 x2).evaluate = some Tx)
    (hxsh : Tx.shape = [B, p, q]) :
    ∃ R, (k.forward x1 x2).evaluate = some R ∧
      R.shape = [B, k.n_tasks * p, k.n_tasks * q] := by
  obtain ⟨R, hR, hRsh⟩ := kron2_3 hish hxsh
  refine ⟨R, ?_, hRsh⟩
  simp only [MultitaskKernel.forward, LazyTensor.evaluate, hi, hx,
    Option.bind_eq_bind, Option.some_bind, hR]

theorem mt_size2 {k : MultitaskKernel} {x1 x2 : Tensor} {n1 d1 n2 d2 : Nat}
    (h1 : x1.shape = [n1, d1]) (h2 : x2.shape = [n2, d2]) :
    k.size x1 x2 = some [k.n_tasks * n1, k.n_tasks * n2] := by
  simp [MultitaskKernel.size, h1, h2]

theorem mt_size3 {k : MultitaskKernel} {x1 x2 : Tensor} {b n1 d1 b2 n2 d2 : Nat}
    (h1 : x1.shape = [b, n1, d1]) (h2 : x2.shape = [b2, n2, d2]) :
    k.size x1 x2 = some [b, k.n_tasks * n1, k.n_tasks * n2] := by
  simp [MultitaskKernel.size, h1, h2]

theorem forward3_matvec {k : LinearKernel} {x1 x2 v : Tensor} {b n1 n2 q : Nat}
    (h1 : x1.shape = [b, n1, k.num_dimensions])
    (h2 : x2.shape = [b, n2, k.num_dimensions])
    (hv : v.shape = [n2, q]) :
    ∃ l mv T dv, k.forward x1 x2 = some l ∧ l.matvec v = some mv ∧
      l.evaluate = some T ∧ T.matmul v = some dv ∧
      mv.shape = [b, n1, q] ∧ dv.shape = [b, n1, q] ∧
      ∀ β i j, β < b → i < n1 → j < q → mv.data [β, i, j] = dv.data [β, i, j] := by
  by_cases heq : (x1.shape == x2.shape && Tensor.equal x1 x2) = true
  · have hteq : Tensor.equal x1 x2 = true := by
      rw [Bool.and_eq_true] at heq
      exact heq.2
    have hsh : x1.shape = x2.shape := Tensor.equal_shape hteq
    obtain rfl : n1 = n2 := by
      rw [h1, h2] at hsh
      simp at hsh
      omega
    rw [forward_root heq (sub_off3 h1) (center3_shape k x1 b n1)]
    obtain ⟨mv, T, dv, hmv, hT, hdv, hmvsh, hdvsh, hdata⟩ :=
      matvec_agree_root (center3_shape k x1 b n1)
        (show (Tensor.mk [b, n1, n1] (fun _ => k.variance)).shape = [b, n1, n1] from rfl) hv
    exact ⟨_, mv, T, dv, rfl, hmv, hT, hdv, hmvsh, hdvsh, hdata⟩
  · have hne : (x1.shape == x2.shape && Tensor.equal x1 x2) = false := by
      simpa using heq
    rw [forward_matmul hne (sub_off3 h1) (sub_off3 h2)
      (center3_shape k x1 b n1) (center3_shape k x2 b n2)]
    obtain ⟨mv, T, dv, hmv, hT, hdv, hmvsh, hdvsh, hdata⟩ :=
      matvec_agree_matmul (center3_shape k x1 b n1)
        (show (Tensor.mk [b, k.num_dimensions, n2]
          (fun idx => (center3 k x2 b n2).data (swapAt idx 2 1))).shape
            = [b, k.num_dimensions, n2] from rfl)
        (show (Tensor.mk [b, n1, n2] (fun _ => k.variance)).shape = [b, n1, n2] from rfl) hv
    exact ⟨_, mv, T, dv, rfl, hmv, hT, hdv, hmvsh, hdvsh, hdata⟩

theorem broadcastShapes_mismatch {s : List Nat} {a d : Nat}
    (h : a ≠ d) (h1 : a ≠ 1) (h2 : d ≠ 1) :
    broadcastShapes (s ++ [a]) [1, 1, d] = none := by
  simp [broadcastShapes, bcRev, bc2, h, h1, h2]

theorem sub_off_mismatch {k : LinearKernel} {x : Tensor} {s : List Nat} {a : Nat}
    (hx : x.shape = s ++ [a]) (h : a ≠ k.num_dimensions) (h1 : a ≠ 1)
    (h2 : k.num_dimensions ≠ 1) :
    x.sub k.offsetTensor = none := by
  unfold Tensor.sub
  rw [offsetTensor_shape, hx, broadcastShapes_mismatch h h1 h2]
  rfl
/-! ## Claim theorems -/

/-- Claim C1: for fixed parameter values, materializing the lazy matrix
returned by `LinearKernel.forward(x1, x2)` yields exactly the dense matrix
`(x1 - o)(x2 - o)ᵗ + v`, with the variance broadcast to every entry, for
inputs of shape `(n, num_dimensions)` (whose centering broadcasts to batch
size 1) and `(b, n, num_dimensions)`. -/
theorem linear_forward_materialization :
    (∀ (k : LinearKernel) (x1 x2 : Tensor) (n1 n2 : Nat),
      x1.shape = [n1, k.num_dimensions] → x2.shape = [n2, k.num_dimensions] →
      ∃ l T, k.forward x1 x2 = some l ∧ l.evaluate = some T ∧
        T.shape = [1, n1, n2] ∧
        ∀ i j, i < n1 → j < n2 →
          T.data [0, i, j] =
            (∑ t ∈ Finset.range k.num_dimensions,
              (x1.data [i, t] - k.offset t) * (x2.data [j, t] - k.offset t)) +
              k.variance) ∧
    (∀ (k : LinearKernel) (x1 x2 : Tensor) (b n1 n2 : Nat),
      x1.shape = [b, n1, k.num_dimensions] → x2.shape = [b, n2, k.num_dimensions] →
      ∃ l T, k.forward x1 x2 = some l ∧ l.evaluate = some T ∧
        T.shape = [b, n1, n2] ∧
        ∀ β i j, β < b → i < n1 → j < n2 →
          T.data [β, i, j] =
            (∑ t ∈ Finset.range k.num_dimensions,
              (x1.data [β, i, t] - k.offset t) * (x2.data [β, j, t] - k.offset t)) +
              k.variance) := by
  constructor
  · intro k x1 x2 n1 n2 h1 h2
    obtain ⟨l, T, hf, _, he, hsh, hd⟩ := forward2_master h1 h2
    exact ⟨l, T, hf, he, hsh, hd⟩
  · intro k x1 x2 b n1 n2 h1 h2
    obtain ⟨l, T, hf, _, he, hsh, hd⟩ := forward3_master h1 h2
    exact ⟨l, T, hf, he, hsh, hd⟩

/-- Witness for C1 at a concrete kernel and concrete `(2,2)` and `(3,2)`
inputs. -/
theorem linear_forward_materialization_witness :
    ∃ l T, wK.forward wX1 wX2 = some l ∧ l.evaluate = some T ∧
      T.shape = [1, 2, 3] ∧
      ∀ i j, i < 2 → j < 3 →
        T.data [0, i, j] =
          (∑ t ∈ Finset.range 2,
            (wX1.data [i, t] - 1) * (wX2.data [j, t] - 1)) + 5 :=
  linear_forward_materialization.1 wK wX1 wX2 2 3 rfl rfl

/-- Claim C2: `LinearKernel.forward` produces the root-product lazy form built
on the single centered tensor `x1 - offset` exactly when `x1` and `x2` have
identical shape and are elementwise equal (`torch.equal`), and otherwise the
matmul-product lazy form built on the two independently centered tensors. -/
theorem linear_forward_branch_dispatch {k : LinearKernel} {x1 x2 c1 c2 : Tensor}
    {B n1 d n2 : Nat}
    (hc1 : x1.sub k.offsetTensor = some c1) (hc2 : x2.sub k.offsetTensor = some c2)
    (h1 : c1.shape = [B, n1, d]) (h2 : c2.shape = [B, n2, d]) :
    (Tensor.equal x1 x2 = true →
      k.forward x1 x2 = some (LazyTensor.sum (LazyTensor.root c1)
        (Tensor.mk [B, n1, n1] (fun _ => k.variance)))) ∧
    (Tensor.equal x1 x2 = false →
      k.forward x1 x2 = some (LazyTensor.sum
        (LazyTensor.matmul c1
          (Tensor.mk [B, d, n2] (fun idx => c2.data (swapAt idx 2 1))))
        (Tensor.mk [B, n1, n2] (fun _ => k.variance)))) := by
  constructor
  · intro hteq
    have hsh : x1.shape = x2.shape := Tensor.equal_shape hteq
    have heq : (x1.shape == x2.shape && Tensor.equal x1 x2) = true := by
      simp [hsh, hteq]
    exact forward_root heq hc1 h1
  · intro hne
    have hne2 : (x1.shape == x2.shape && Tensor.equal x1 x2) = false := by
      simp [hne]
    exact forward_matmul hne2 hc1 hc2 h1 h2

/-- Witness for C2: the equal pair takes the root branch, the unequal pair
takes the matmul branch, at concrete inputs. -/
theorem linear_forward_branch_dispatch_witness :
    (Tensor.equal wX1 wX1 = true ∧
      wK.forward wX1 wX1 = some (LazyTensor.sum (LazyTensor.root (center2 wK wX1 2))
        (Tensor.mk [1, 2, 2] (fun _ => (5 : ℚ))))) ∧
    (Tensor.equal wX1 wX2 = false ∧
      wK.forward wX1 wX2 = some (LazyTensor.sum
        (LazyTensor.matmul (center2 wK wX1 2)
          (Tensor.mk [1, 2, 3] (fun idx => (center2 wK wX2 3).data (swapAt idx 2 1))))
        (Tensor.mk [1, 2, 3] (fun _ => (5 : ℚ))))) := by
  refine ⟨⟨by decide, ?_⟩, ⟨by decide, ?_⟩⟩
  · exact (linear_forward_branch_dispatch (sub_off2 rfl) (sub_off2 rfl) rfl rfl).1
      (by decide)
  · exact (linear_forward_branch_dispatch (sub_off2 rfl) (sub_off2 rfl) rfl rfl).2
      (by decide)

/-- Claim C5: the root-product lazy form of a centered tensor `X - offset` and
the matmul-product lazy form of the pair `(X - offset, (X - offset)` transposed
as in `forward`) materialize to the same dense matrix. -/
theorem linear_root_matmul_equivalence :
    (∀ (k : LinearKernel) (X c : Tensor) (n : Nat),
      X.shape = [n, k.num_dimensions] → X.sub k.offsetTensor = some c →
      ∃ ct T, c.transpose 2 1 = some ct ∧
        (LazyTensor.root c).evaluate = some T ∧
        (LazyTensor.matmul c ct).evaluate = some T) ∧
    (∀ (k : LinearKernel) (X c : Tensor) (b n : Nat),
      X.shape = [b, n, k.num_dimensions] → X.sub k.offsetTensor = some c →
      ∃ ct T, c.transpose 2 1 = some ct ∧
        (LazyTensor.root c).evaluate = some T ∧
        (LazyTensor.matmul c ct).evaluate = some T) := by
  constructor
  · intro k X c n hX hsub
    have hc0 := sub_off2 hX
    rw [hsub] at hc0
    obtain rfl : c = center2 k X n := Option.some.inj hc0
    have hc : (center2 k X n).shape = [1, n, k.num_dimensions] := rfl
    obtain ⟨T, hT, hTsh, _⟩ := matmul3 hc
      (show (Tensor.mk [1, k.num_dimensions, n]
        (fun idx => (center2 k X n).data (swapAt idx 1 2))).shape
          = [1, k.num_dimensions, n] from rfl)
    refine ⟨_, T, ?_, ?_, hT⟩
    · rw [transpose21_eq_transposeLast hc, transposeLast_3 hc]
    · simp only [LazyTensor.evaluate, transposeLast_3 hc, Option.bind_eq_bind,
        Option.some_bind, hT]
  · intro k X c b n hX hsub
    have hc0 := sub_off3 hX
    rw [hsub] at hc0
    obtain rfl : c = center3 k X b n := Option.some.inj hc0
    have hc : (center3 k X b n).shape = [b, n, k.num_dimensions] := rfl
    obtain ⟨T, hT, hTsh, _⟩ := matmul3 hc
      (show (Tensor.mk [b, k.num_dimensions, n]
        (fun idx => (center3 k X b n).data (swapAt idx 1 2))).shape
          = [b, k.num_dimensions, n] from rfl)
    refine ⟨_, T, ?_, ?_, hT⟩
    · rw [transpose21_eq_transposeLast hc, transposeLast_3 hc]
    · simp only [LazyTensor.evaluate, transposeLast_3 hc, Option.bind_eq_bind,
        Option.some_bind, hT]

/-- Witness for C5 at a concrete kernel and `(2,2)` input. -/
theorem linear_root_matmul_equivalence_witness :
    ∃ ct T, (center2 wK wX1 2).transpose 2 1 = some ct ∧
      (LazyTensor.root (center2 wK wX1 2)).evaluate = some T ∧
      (LazyTensor.matmul (center2 wK wX1 2) ct).evaluate = some T :=
  linear_root_matmul_equivalence.1 wK wX1 (center2 wK wX1 2) 2 rfl (sub_off2 rfl)

/-- Claim C6: for `x1 == x2` (same shape, elementwise equal), the materialized
output of `LinearKernel.forward` equals its own transpose. -/
theorem linear_forward_symmetry :
    (∀ (k : LinearKernel) (x1 x2 : Tensor) (n : Nat),
      x1.shape = [n, k.num_dimensions] → x2.shape = [n, k.num_dimensions] →
      Tensor.equal x1 x2 = true →
      ∃ l T, k.forward x1 x2 = some l ∧ l.evaluate = some T ∧
        T.shape = [1, n, n] ∧
        ∀ i j, i < n → j < n → T.data [0, i, j] = T.data [0, j, i]) ∧
    (∀ (k : LinearKernel) (x1 x2 : Tensor) (b n : Nat),
      x1.shape = [b, n, k.num_dimensions] → x2.shape = [b, n, k.num_dimensions] →
      Tensor.equal x1 x2 = true →
      ∃ l T, k.forward x1 x2 = some l ∧ l.evaluate = some T ∧
        T.shape = [b, n, n] ∧
        ∀ β i j, β < b → i < n → j < n →
          T.data [β, i, j] = T.data [β, j, i]) := by
  constructor
  · intro k x1 x2 n h1 h2 hteq
    obtain ⟨l, T, hf, _, he, hsh, hd⟩ := forward2_master h1 h2
    refine ⟨l, T, hf, he, hsh, ?_⟩
    intro i j hi hj
    rw [hd i j hi hj, hd j i hj hi]
    congr 1
    apply Finset.sum_congr rfl
    intro t ht
    have htd : t < k.num_dimensions := Finset.mem_range.mp ht
    have e1 : x1.data [j, t] = x2.data [j, t] := by
      apply Tensor.equal_data hteq
      rw [h1]
      exact mem_allIdx2 hj htd
    have e2 : x1.data [i, t] = x2.data [i, t] := by
      apply Tensor.equal_data hteq
      rw [h1]
      exact mem_allIdx2 hi htd
    rw [← e1, ← e2]
    ring
  · intro k x1 x2 b n h1 h2 hteq
    obtain ⟨l, T, hf, _, he, hsh, hd⟩ := forward3_master h1 h2
    refine ⟨l, T, hf, he, hsh, ?_⟩
    intro β i j hβ hi hj
    rw [hd β i j hβ hi hj, hd β j i hβ hj hi]
    congr 1
    apply Finset.sum_congr rfl
    intro t ht
    have htd : t < k.num_dimensions := Finset.mem_range.mp ht
    have e1 : x1.data [β, j, t] = x2.data [β, j, t] := by
      apply Tensor.equal_data hteq
      rw [h1]
      exact mem_allIdx3 hβ hj htd
    have e2 : x1.data [β, i, t] = x2.data [β, i, t] := by
      apply Tensor.equal_data hteq
      rw [h1]
      exact mem_allIdx3 hβ hi htd
    rw [← e1, ← e2]
    ring

/-- Witness for C6 at a concrete kernel and equal concrete inputs. -/
theorem linear_forward_symmetry_witness :
    ∃ l T, wK.forward wX1 wX1 = some l ∧ l.evaluate = some T ∧
      T.shape = [1, 2, 2] ∧
      ∀ i j, i < 2 → j < 2 → T.data [0, i, j] = T.data [0, j, i] :=
  linear_forward_symmetry.1 wK wX1 wX1 2 rfl rfl (by decide)

/-- Claim C7: the lazy matrix returned by `forward` has trailing dimensions
`(n1, n2)` with `n1 = x1.size(-2)`, `n2 = x2.size(-2)` (with batch dimension
1 for 2-dimensional inputs, `b` for batched inputs), and on either branch its
implicit matrix-vector product agrees entrywise with the dense product of its
materialization. -/
theorem linear_forward_shape_and_matvec :
    (∀ (k : LinearKernel) (x1 x2 : Tensor) (n1 n2 : Nat),
      x1.shape = [n1, k.num_dimensions] → x2.shape = [n2, k.num_dimensions] →
      ∃ l, k.forward x1 x2 = some l ∧ l.size = some [1, n1, n2] ∧
        ∀ (v : Tensor) (q : Nat), v.shape = [n2, q] →
          ∃ mv T dv, l.matvec v = some mv ∧ l.evaluate = some T ∧
            T.matmul v = some dv ∧ mv.shape = [1, n1, q] ∧ dv.shape = [1, n1, q] ∧
            ∀ i j, i < n1 → j < q → mv.data [0, i, j] = dv.data [0, i, j]) ∧
    (∀ (k : LinearKernel) (x1 x2 : Tensor) (b n1 n2 : Nat),
      x1.shape = [b, n1, k.num_dimensions] → x2.shape = [b, n2, k.num_dimensions] →
      ∃ l, k.forward x1 x2 = some l ∧ l.size = some [b, n1, n2] ∧
        ∀ (v : Tensor) (q : Nat), v.shape = [n2, q] →
          ∃ mv T dv, l.matvec v = some mv ∧ l.evaluate = some T ∧
            T.matmul v = some dv ∧ mv.shape = [b, n1, q] ∧ dv.shape = [b, n1, q] ∧
            ∀ β i j, β < b → i < n1 → j < q →
              mv.data [β, i, j] = dv.data [β, i, j]) := by
  constructor
  · intro k x1 x2 n1 n2 h1 h2
    obtain ⟨l, T0, hf, hsz, _, _, _⟩ := forward2_master h1 h2
    refine ⟨l, hf, hsz, ?_⟩
    intro v q hv
    obtain ⟨l2, mv, T, dv, hf2, hmv, hT, hdv, hmvsh, hdvsh, hdata⟩ :=
      forward2_matvec h1 h2 hv
    rw [hf] at hf2
    obtain rfl : l = l2 := Option.some.inj hf2
    exact ⟨mv, T, dv, hmv, hT, hdv, hmvsh, hdvsh, hdata⟩
  · intro k x1 x2 b n1 n2 h1 h2
    obtain ⟨l, T0, hf, hsz, _, _, _⟩ := forward3_master h1 h2
    refine ⟨l, hf, hsz, ?_⟩
    intro v q hv
    obtain ⟨l2, mv, T, dv, hf2, hmv, hT, hdv, hmvsh, hdvsh, hdata⟩ :=
      forward3_matvec h1 h2 hv
    rw [hf] at hf2
    obtain rfl : l = l2 := Option.some.inj hf2
    exact ⟨mv, T, dv, hmv, hT, hdv, hmvsh, hdvsh, hdata⟩

/-- Witness for C7 at a concrete kernel and `(2,2)`, `(3,2)` inputs. -/
theorem linear_forward_shape_and_matvec_witness :
    ∃ l, wK.forward wX1 wX2 = some l ∧ l.size = some [1, 2, 3] ∧
      ∀ (v : Tensor) (q : Nat), v.shape = [3, q] →
        ∃ mv T dv, l.matvec v = some mv ∧ l.evaluate = some T ∧
          T.matmul v = some dv ∧ mv.shape = [1, 2, q] ∧ dv.shape = [1, 2, q] ∧
          ∀ i j, i < 2 → j < q → mv.data [0, i, j] = dv.data [0, i, j] :=
  linear_forward_shape_and_matvec.1 wK wX1 wX2 2 3 rfl rfl

/-- Claim C8 counterexample: with `num_dimensions = 3` and inputs of shape
`(2, 1)` — last dimension 1, different from 3 — `forward` does not fail: the
size-1 dimension broadcasts against the offset and a lazy result is returned. -/
theorem linear_dim_mismatch_counterexample :
    cXnarrow.shape = [2, 1] ∧ cK3.num_dimensions = 3 ∧
    (cK3.forward cXnarrow cXnarrow).isSome = true :=
  ⟨rfl, rfl, by decide⟩

/-- Claim C8 (amended): `forward` fails whenever the last input dimension
differs from `num_dimensions` and neither is 1; when either is 1, torch
broadcasting silently accepts the input (as on the `(2, 1)` counterexample). -/
theorem linear_dim_mismatch_amended :
    ∀ (k : LinearKernel) (x1 x2 : Tensor) (s : List Nat) (a : Nat),
      x1.shape = s ++ [a] → a ≠ k.num_dimensions → a ≠ 1 → k.num_dimensions ≠ 1 →
      k.forward x1 x2 = none := by
  intro k x1 x2 s a hx ha h1 h2
  have hsub : x1.sub k.offsetTensor = none := sub_off_mismatch hx ha h1 h2
  unfold LinearKernel.forward
  rw [hsub]
  split <;> rfl

/-- Witness for amended C8: `num_dimensions = 3` with `(5, 4)` inputs fails. -/
theorem linear_dim_mismatch_amended_witness :
    cK3.forward cX54 cX54 = none :=
  linear_dim_mismatch_amended cK3 cX54 cX54 [5] 4 rfl
    (by decide) (by decide) (by decide)

/-- Claim C9: zero-length batches (`n1 = 0` or `n2 = 0`, last dimension equal
to `num_dimensions`) complete without failure and the zero row/column counts
propagate into the declared size and the materialized shape. -/
theorem linear_zero_length_shape :
    (∀ (k : LinearKernel) (x1 x2 : Tensor) (n1 n2 : Nat),
      x1.shape = [n1, k.num_dimensions] → x2.shape = [n2, k.num_dimensions] →
      n1 = 0 ∨ n2 = 0 →
      ∃ l T, k.forward x1 x2 = some l ∧ l.size = some [1, n1, n2] ∧
        l.evaluate = some T ∧ T.shape = [1, n1, n2]) ∧
    (∀ (k : LinearKernel) (x1 x2 : Tensor) (b n1 n2 : Nat),
      x1.shape = [b, n1, k.num_dimensions] → x2.shape = [b, n2, k.num_dimensions] →
      n1 = 0 ∨ n2 = 0 →
      ∃ l T, k.forward x1 x2 = some l ∧ l.size = some [b, n1, n2] ∧
        l.evaluate = some T ∧ T.shape = [b, n1, n2]) := by
  constructor
  · intro k x1 x2 n1 n2 h1 h2 _hz
    obtain ⟨l, T, hf, hsz, he, hsh, _⟩ := forward2_master h1 h2
    exact ⟨l, T, hf, hsz, he, hsh⟩
  · intro k x1 x2 b n1 n2 h1 h2 _hz
    obtain ⟨l, T, hf, hsz, he, hsh, _⟩ := forward3_master h1 h2
    exact ⟨l, T, hf, hsz, he, hsh⟩

/-- Witness for C9 with a `(0, 2)` first input. -/
theorem linear_zero_length_shape_witness :
    ∃ l T, wK.forward wX0 wX2 = some l ∧ l.size = some [1, 0, 3] ∧
      l.evaluate = some T ∧ T.shape = [1, 0, 3] :=
  linear_zero_length_shape.1 wK wX0 wX2 0 3 rfl rfl (Or.inl rfl)

/-- Claim C10: for 2-dimensional inputs, `forward` returns a 3-dimensional
lazy matrix with a leading batch dimension of size 1 — never an unbatched
2-dimensional one — because the `(1, 1, num_dimensions)` offset inserts a
batch dimension during centering. -/
theorem linear_2d_input_batched_output :
    ∀ (k : LinearKernel) (x1 x2 : Tensor) (n1 n2 : Nat),
      x1.shape = [n1, k.num_dimensions] → x2.shape = [n2, k.num_dimensions] →
      ∃ l, k.forward x1 x2 = some l ∧ l.size = some [1, n1, n2] ∧
        ∃ T, l.evaluate = some T ∧ T.shape = [1, n1, n2] ∧ T.shape.length = 3 := by
  intro k x1 x2 n1 n2 h1 h2
  obtain ⟨l, T, hf, hsz, he, hsh, _⟩ := forward2_master h1 h2
  refine ⟨l, hf, hsz, T, he, hsh, ?_⟩
  rw [hsh]
  rfl

/-- Witness for C10 at concrete `(2, 2)` and `(3, 2)` inputs. -/
theorem linear_2d_input_batched_output_witness :
    ∃ l, wK.forward wX1 wX2 = some l ∧ l.size = some [1, 2, 3] ∧
      ∃ T, l.evaluate = some T ∧ T.shape = [1, 2, 3] ∧ T.shape.length = 3 :=
  linear_2d_input_batched_output wK wX1 wX2 2 3 rfl rfl

/-- Claim C3 counterexample: for 3-dimensional inputs with batch size 1 and a
data kernel returning the contractual `(1, n1, n2)` batched covariance, the
`squeeze(0)` inside `forward` drops the batch dimension, so the declared
`size` `(1, 6, 6)` differs from the materialized shape `(6, 6)` of the
forward output. -/
theorem multitask_size_matches_forward_counterexample :
    cMT.size cZ3 cZ3 = some [1, 6, 6] ∧
    ((cMT.forward cZ3 cZ3).evaluate).map Tensor.shape = some [6, 6] ∧
    cMT.size cZ3 cZ3 ≠ ((cMT.forward cZ3 cZ3).evaluate).map Tensor.shape :=
  ⟨by decide, by decide, by decide⟩

/-- Claim C3 (amended): `size` returns `(n_tasks·n1, n_tasks·n2)` for
2-dimensional `x1` and `(x1.size(0), n_tasks·n1, n_tasks·n2)` for
3-dimensional `x1`, computed without invoking `forward`; and this equals the
materialized shape of `forward`'s output provided the data covariance, after
the `squeeze(0)` applied inside `forward`, has shape `(n1, n2)`
(resp. `(b, n1, n2)`). -/
theorem multitask_size_matches_forward_amended :
    (∀ (k : MultitaskKernel) (x1 x2 Ti Tx : Tensor) (n1 d1 n2 d2 : Nat),
      x1.shape = [n1, d1] → x2.shape = [n2, d2] →
      (k.taskCovar (taskIndices k.n_tasks)).evaluate = some Ti →
      Ti.shape = [k.n_tasks, k.n_tasks] →
      (k.covarX x1 x2).evaluate = some Tx → Tx.shape = [n1, n2] →
      k.size x1 x2 = some [k.n_tasks * n1, k.n_tasks * n2] ∧
      ∃ R, (k.forward x1 x2).evaluate = some R ∧
        R.shape = [k.n_tasks * n1, k.n_tasks * n2]) ∧
    (∀ (k : MultitaskKernel) (x1 x2 Ti Tx : Tensor) (b n1 d1 b2 n2 d2 : Nat),
      x1.shape = [b, n1, d1] → x2.shape = [b2, n2, d2] →
      (k.taskCovar (taskIndices k.n_tasks)).evaluate = some Ti →
      Ti.shape = [k.n_tasks, k.n_tasks] →
      (k.covarX x1 x2).evaluate = some Tx → Tx.shape = [b, n1, n2] →
      k.size x1 x2 = some [b, k.n_tasks * n1, k.n_tasks * n2] ∧
      ∃ R, (k.forward x1 x2).evaluate = some R ∧
        R.shape = [b, k.n_tasks * n1, k.n_tasks * n2]) := by
  constructor
  · intro k x1 x2 Ti Tx n1 d1 n2 d2 h1 h2 hi hish hx hxsh
    refine ⟨mt_size2 h1 h2, ?_⟩
    obtain ⟨R, hR, hRsh, _⟩ := mt_forward_eval2 hi hish hx hxsh
    exact ⟨R, hR, hRsh⟩
  · intro k x1 x2 Ti Tx b n1 d1 b2 n2 d2 h1 h2 hi hish hx hxsh
    refine ⟨mt_size3 h1 h2, ?_⟩
    obtain ⟨R, hR, hRsh⟩ := mt_forward_eval3 hi hish hx hxsh
    exact ⟨R, hR, hRsh⟩

/-- Witness for amended C3 at a concrete 2-task kernel and `(3, 1)` inputs. -/
theorem multitask_size_matches_forward_amended_witness :
    wMT.size wZ wZ = some [6, 6] ∧
    ∃ R, (wMT.forward wZ wZ).evaluate = some R ∧ R.shape = [6, 6] :=
  multitask_size_matches_forward_amended.1 wMT wZ wZ wTi wTx 3 1 3 1
    rfl rfl rfl rfl rfl rfl

/-- Claim C4 counterexample: when the data kernel returns a batched
`(1, 3, 3)` dense covariance, `forward` composes the squeezed `(3, 3)`
tensor, so its materialization has shape `(6, 6)`, while the Kronecker
product of the materialized task covariance with the materialized data
covariance itself has shape `(1, 6, 6)`: the claimed equality fails. -/
theorem multitask_kron_structure_counterexample :
    ((cMT.forward cZ3 cZ3).evaluate).map Tensor.shape = some [6, 6] ∧
    (wTi.kron cTx3).map Tensor.shape = some [1, 6, 6] ∧
    ((cMT.forward cZ3 cZ3).evaluate).map Tensor.shape ≠
      (wTi.kron cTx3).map Tensor.shape :=
  ⟨by decide, by decide, by decide⟩

/-- Claim C4 (amended): materializing `MultitaskKernel.forward` yields the
mathematical Kronecker product — entry `(i, j)` equal to
`covar_i[i / p, j / q] · covar_x[i % p, j % q]` — of the materialized task
covariance (the task module evaluated on the task-index vector
`[0, …, n_tasks-1]`) with the data covariance as composed by `forward`,
i.e. after the `squeeze(0)` that drops a leading size-1 dimension of the data
kernel result. -/
theorem multitask_kron_structure_amended :
    ∀ (k : MultitaskKernel) (x1 x2 Ti Tx : Tensor) (p q : Nat),
      (k.taskCovar (taskIndices k.n_tasks)).evaluate = some Ti →
      Ti.shape = [k.n_tasks, k.n_tasks] →
      (k.covarX x1 x2).evaluate = some Tx → Tx.shape = [p, q] →
      ∃ R, (k.forward x1 x2).evaluate = some R ∧
        R.shape = [k.n_tasks * p, k.n_tasks * q] ∧
        ∀ i j, R.data [i, j] = Ti.data [i / p, j / q] * Tx.data [i % p, j % q] := by
  intro k x1 x2 Ti Tx p q hi hish hx hxsh
  exact mt_forward_eval2 hi hish hx hxsh

/-- Witness for amended C4 at a concrete 2-task kernel and `(3, 1)` inputs. -/
theorem multitask_kron_structure_amended_witness :
    ∃ R, (wMT.forward wZ wZ).evaluate = some R ∧
      R.shape = [6, 6] ∧
      ∀ i j, R.data [i, j] = wTi.data [i / 3, j / 3] * wTx.data [i % 3, j % 3] :=
  multitask_kron_structure_amended wMT wZ wZ wTi wTx 3 3 rfl rfl rfl rfl

end GPy
